import Mathlib

/-!
Verification of the bank-statement normalization / aggregation pipeline
(`src/index.ts`).  The TypeScript source is shallowly embedded: JavaScript
strings are modelled as `String` / `List Char`, JS numbers carrying parsed
amounts as `ℚ`, sparse cells as `""`, a `Date` value as the triple of
constructor arguments with `none` for an Invalid Date, and the implicit
`NaN` results of `parseFloat` / `parseInt` as `Option`.
-/

/-- Whitespace test used for the JS `\s` class and `String.prototype.trim`
(Unicode space variants beyond `Char.isWhitespace` are not modelled; no
claim depends on them). -/
def isWsChar (c : Char) : Bool := c.isWhitespace

/-- Models `s.trim()` on the character list. -/
def jsTrimL (l : List Char) : List Char :=
  ((l.dropWhile isWsChar).reverse.dropWhile isWsChar).reverse

/-- Models `s.trim()`. -/
def jsTrim (s : String) : String := String.mk (jsTrimL s.toList)

/-- Models `c.toUpperCase()` for a single code point.  ASCII letters are
uppercased via `Char.toUpper`; of the non-ASCII letters only the Slovene /
Serbian ones that can reach the registry keywords are mapped. -/
def jsToUpperChar (c : Char) : Char :=
  if c = 'č' then 'Č'
  else if c = 'š' then 'Š'
  else if c = 'ž' then 'Ž'
  else if c = 'ć' then 'Ć'
  else if c = 'đ' then 'Đ'
  else c.toUpper

/-- `startsWithL l p` is true when `p` is an initial segment of `l`. -/
def startsWithL : List Char → List Char → Bool
  | _, [] => true
  | [], _ :: _ => false
  | c :: cs, p :: ps => c = p && startsWithL cs ps

/-- Models `l.includes(pat)`: `pat` occurs contiguously inside `l`. -/
def containsL : List Char → List Char → Bool
  | [], pat => pat.isEmpty
  | c :: cs, pat => startsWithL (c :: cs) pat || containsL cs pat

/-- Models `h.toUpperCase().includes(pat.toUpperCase())`, the case-insensitive
substring test used for column resolution and qualification. -/
def containsCI (h pat : String) : Bool :=
  containsL (h.toList.map jsToUpperChar) (pat.toList.map jsToUpperChar)

/-- Strip step of the amount parser: `raw.replace(/[^\d,.-]/g, '')`. -/
def stripAmountChars (l : List Char) : List Char :=
  l.filter (fun c => c.isDigit || c = ',' || c = '.' || c = '-')

/-- Models `s.replace(/x/g, '')` for a single character `x`. -/
def removeAllChar (l : List Char) (x : Char) : List Char :=
  l.filter (fun c => c ≠ x)

/-- Models `s.replace(x, y)` for single characters: only the first
occurrence of `x` is replaced. -/
def replaceFirstChar : List Char → Char → Char → List Char
  | [], _, _ => []
  | c :: cs, x, y => if c = x then y :: cs else c :: replaceFirstChar cs x y

/-- Models `s.lastIndexOf(x)`: index of the last occurrence, `-1` if absent. -/
def lastIdxOf (l : List Char) (x : Char) : Int :=
  match l with
  | [] => -1
  | c :: cs =>
    let r := lastIdxOf cs x
    if r = -1 then (if c = x then 0 else -1) else r + 1

/-- Models `s.split(x)` for a single-character separator (JS semantics:
`"".split(x)` is `[""]`, separators at the ends produce empty parts). -/
def splitOnCharL : List Char → Char → List (List Char)
  | [], _ => [[]]
  | c :: cs, sep =>
    if c = sep then [] :: splitOnCharL cs sep
    else
      match splitOnCharL cs sep with
      | [] => [[c]]
      | h :: t => (c :: h) :: t

/-- Locale normalization of an amount string, transcribed from the block
duplicated three times inside `parseBankTransactions`
(src/index.ts:392-415, 434-458, 474-498). -/
def normalizeAmountL (raw : List Char) : List Char :=
  let cleanValue := stripAmountChars raw
  if cleanValue.contains ',' && cleanValue.contains '.' then
    if lastIdxOf cleanValue '.' < lastIdxOf cleanValue ',' then
      replaceFirstChar (removeAllChar cleanValue '.') ',' '.'
    else
      removeAllChar cleanValue ','
  else if cleanValue.contains ',' then
    let parts := splitOnCharL cleanValue ','
    if parts.length = 2 && (parts.getD 1 []).length ≤ 2 then
      replaceFirstChar cleanValue ',' '.'
    else
      removeAllChar cleanValue ','
  else cleanValue

/-- Numeric value of a digit string. -/
def digitsVal (l : List Char) : ℕ :=
  l.foldl (fun a c => 10 * a + (c.toNat - 48)) 0

/-- Longest numeric prefix after the sign: digits, optionally followed by
`.` and more digits.  `none` models `NaN` (no digit consumed). -/
def parseMantissa (l : List Char) : Option ℚ :=
  let ip := l.takeWhile Char.isDigit
  match l.dropWhile Char.isDigit with
  | '.' :: r2 =>
    let fp := r2.takeWhile Char.isDigit
    if ip.isEmpty && fp.isEmpty then none
    else some ((digitsVal ip : ℚ) + (digitsVal fp : ℚ) / (10 : ℚ) ^ fp.length)
  | _ => if ip.isEmpty then none else some (digitsVal ip)

/-- Models `parseFloat` on the strings reachable here (an optional leading
sign then a numeric prefix; exponents, `Infinity` and leading whitespace
cannot occur after `stripAmountChars`). -/
def jsParseFloatQ : List Char → Option ℚ
  | '-' :: r => (parseMantissa r).map (fun q => -q)
  | '+' :: r => parseMantissa r
  | l => parseMantissa l

/-- The locale-ambiguous numeric parser: `parseFloat(cleanValue) || 0`
applied to the normalized amount string (spec name `parseLocaleAmount`;
inline in `parseBankTransactions` in the source). -/
def parseLocaleAmount (raw : String) : ℚ :=
  (jsParseFloatQ (normalizeAmountL raw.toList)).getD 0

/-- Models `parseInt` on date parts: skip whitespace, optional sign, longest
digit prefix; `none` models `NaN`.  (Hex prefixes are not modelled; no date
part reaches them.) -/
def jsParseIntL (l : List Char) : Option Int :=
  let go : List Char → Option Int := fun r =>
    let d := r.takeWhile Char.isDigit
    if d.isEmpty then none else some (digitsVal d : Int)
  match l.dropWhile isWsChar with
  | '-' :: r => (go r).map (fun n => -n)
  | '+' :: r => go r
  | r => go r

/-- A JS `Date` built by `new Date(y, m, d)`: the argument triple
`(year, monthIndex, day)`, or `none` for an Invalid Date (some argument was
`NaN`).  Calendar normalization of out-of-range fields is not modelled; no
claim depends on it. -/
abbrev JSDate := Option (Int × Int × Int)

/-- Models `new Date(parseInt(p[2]), parseInt(p[1]) - 1, parseInt(p[0]))`
where a missing part behaves like `NaN` (in JS, `parseInt(undefined)` is
`NaN`). -/
def mkJSDate (parts : List (List Char)) : JSDate :=
  match (parts.get? 2).bind jsParseIntL, (parts.get? 1).bind jsParseIntL,
      (parts.get? 0).bind jsParseIntL with
  | some y, some m, some d => some (y, m - 1, d)
  | _, _, _ => none

/-- Date resolution of `parseBankTransactions` (src/index.ts:370-382).  The
generic `new Date(dateStr)` fallback is modelled as invalid; no registry
schema reaches it (all use `dd.mm.yyyy` or `dd/mm/yyyy`). -/
def parseRowDate (dateFormat dateStr : String) : JSDate :=
  if dateFormat = "dd.mm.yyyy" then mkJSDate (splitOnCharL dateStr.toList '.')
  else if dateFormat = "dd/mm/yyyy" then mkJSDate (splitOnCharL dateStr.toList '/')
  else none

/-- Transaction polarity. -/
inductive TxType where
  | income
  | expense
deriving DecidableEq

/-- The canonical transaction record (src/index.ts:16-22). -/
structure Transaction where
  date : JSDate
  amount : ℚ
  description : String
  recipient : String
  type : TxType
deriving DecidableEq

/-- One bank schema (src/index.ts:48-58).  `logo` is an asset URL import,
kept as a plain placeholder string. -/
structure BankConfig where
  name : String
  logo : String
  dateColumn : String
  incomeColumn : String
  expenseColumn : String
  descriptionColumn : String
  recipientColumn : String
  dateFormat : String
  currency : String
deriving DecidableEq

/-- Registry entry `'nkbm-otp'`. -/
def nkbmOtpConfig : BankConfig :=
  { name := "NKBM/OTP", logo := "nkbmOtpLogo", dateColumn := "DATUM VALUTE",
    incomeColumn := "DOBRO", expenseColumn := "BREME",
    descriptionColumn := "NAMEN", recipientColumn := "UDELE.*NAZIV",
    dateFormat := "dd.mm.yyyy", currency := "€" }

/-- Registry entry `'nlb'`. -/
def nlbConfig : BankConfig :=
  { name := "NLB", logo := "nlbLogo", dateColumn := "Datum",
    incomeColumn := "Prilivi", expenseColumn := "Odlivi",
    descriptionColumn := "Namen", recipientColumn := "Prejemnik",
    dateFormat := "dd.mm.yyyy", currency := "€" }

/-- Registry entry `'intesa'`. -/
def intesaConfig : BankConfig :=
  { name := "Intesa Sanpaolo", logo := "intesaLogo", dateColumn := "Data",
    incomeColumn := "Accrediti", expenseColumn := "Addebiti",
    descriptionColumn := "Descrizione", recipientColumn := "Beneficiario",
    dateFormat := "dd/mm/yyyy", currency := "€" }

/-- Registry entry `'erste'`. -/
def ersteConfig : BankConfig :=
  { name := "Erste Bank", logo := "ersteLogo", dateColumn := "Datum valute",
    incomeColumn := "Iznos", expenseColumn := "Iznos",
    descriptionColumn := "Opis", recipientColumn := "Opis",
    dateFormat := "dd.mm.yyyy", currency := "RSD" }

/-- The bank schema registry (src/index.ts:60-105): a plain object; an
unknown key yields `undefined`, modelled as `none`. -/
def bankConfigs (bankId : String) : Option BankConfig :=
  if bankId = "nkbm-otp" then some nkbmOtpConfig
  else if bankId = "nlb" then some nlbConfig
  else if bankId = "intesa" then some intesaConfig
  else if bankId = "erste" then some ersteConfig
  else none

/-- `getCurrency` (src/index.ts:108-111): `config ? config.currency : '€'`. -/
def getCurrency (currentBank : String) : String :=
  match bankConfigs currentBank with
  | some config => config.currency
  | none => "€"

/-- One parsed sheet (src/index.ts:10-14); cells are strings, a missing
(sparse) cell is modelled as `""` (behaviourally equivalent here: both are
falsy / parse to no amount). -/
structure ParsedData where
  sheetName : String
  headers : List String
  rows : List (List String)

/-- Header predicate `headers.some(h => h && h.toUpperCase().includes(p))`. -/
def hasColumnCI (headers : List String) (pat : String) : Bool :=
  headers.any (fun h => h ≠ "" && containsCI h pat)

/-- `isBankTransactionFile` (src/index.ts:311-326), with the active bank's
config passed explicitly. -/
def isBankTransactionFile (config : BankConfig) (parsedSheets : List ParsedData) :
    Bool :=
  match parsedSheets with
  | [] => false
  | s :: _ =>
    hasColumnCI s.headers config.dateColumn &&
      (hasColumnCI s.headers config.incomeColumn ||
        hasColumnCI s.headers config.expenseColumn)

/-- Row predicate of the Erste header scan (src/index.ts:261-263):
a cell whose raw text contains `'Datum valute'` or `'Iznos'`
(case-sensitive).  The two literals are exactly `ersteConfig.dateColumn`
and `ersteConfig.incomeColumn`. -/
def isErsteHeaderRow (row : List String) : Bool :=
  row.any (fun cell =>
    cell ≠ "" &&
      (containsL cell.toList "Datum valute".toList ||
        containsL cell.toList "Iznos".toList))

/-- Index of the first element satisfying `p` (models
`Array.prototype.findIndex` up to the `-1` encoding, added by the
callers). -/
def findIdxL (p : α → Bool) : List α → Option ℕ
  | [] => none
  | a :: l => if p a then some 0 else (findIdxL p l).map (· + 1)

/-- Header-row discovery of `processFile` (src/index.ts:251-280): given the
sheet grid, produce `(headers, data rows)`; `none` when the grid is empty
(the sheet is then not pushed at all). -/
def splitHeaderRows (currentBank : String) (jsonData : List (List String)) :
    Option (List String × List (List String)) :=
  if jsonData.isEmpty then none
  else if currentBank = "erste" then
    match findIdxL isErsteHeaderRow jsonData with
    | some i => some (jsonData.getD i [], jsonData.drop (i + 1))
    | none => some (jsonData.headD [], jsonData.drop 1)
  else some (jsonData.headD [], jsonData.drop 1)

/-- `headers.findIndex(h => h && h.toUpperCase().includes(p))`; `-1` when
absent. -/
def findColumnIdx (headers : List String) (pat : String) : Int :=
  match findIdxL (fun h => h ≠ "" && containsCI h pat) headers with
  | some i => (i : Int)
  | none => -1

/-- Suffix of `l` after the first occurrence of `pat`, if any. -/
def dropAfterMatch (pat : List Char) : List Char → Option (List Char)
  | [] => if pat.isEmpty then some [] else none
  | c :: cs =>
    if startsWithL (c :: cs) pat then some ((c :: cs).drop pat.length)
    else dropAfterMatch pat cs

/-- Ordered occurrence of each segment. -/
def segsMatch : List (List Char) → List Char → Bool
  | [], _ => true
  | s :: ss, l =>
    match dropAfterMatch s l with
    | some rest => segsMatch ss rest
    | none => false

/-- Split a pattern at each `.*` metacharacter sequence. -/
def regexSegs : List Char → List (List Char)
  | [] => [[]]
  | '.' :: '*' :: rest => [] :: regexSegs rest
  | c :: rest =>
    match regexSegs rest with
    | [] => [[c]]
    | h :: t => (c :: h) :: t

/-- Models `new RegExp(pat, 'i').test(h)` for the registry's recipient
patterns, whose only metacharacter sequence is `.*` (`'UDELE.*NAZIV'`);
the literal segments must occur in order, case-insensitively. -/
def jsRegexTestCI (pat h : String) : Bool :=
  segsMatch ((regexSegs pat.toList).map (fun s => s.map jsToUpperChar))
    (h.toList.map jsToUpperChar)

/-- Recipient column resolution (src/index.ts:342-346). -/
def findRecipientIdx (headers : List String) (pat : String) : Int :=
  match findIdxL (fun h => h ≠ "" && jsRegexTestCI pat h) headers with
  | some i => (i : Int)
  | none => -1

/-- `row[i]` with JS semantics for our string cells: out-of-range (including
index `-1`) behaves like an empty cell. -/
def getCell (row : List String) (i : Int) : String :=
  if 0 ≤ i then row.getD i.toNat "" else ""

/-- Models `x || 'Unknown'` for a string cell. -/
def orUnknown (s : String) : String := if s = "" then "Unknown" else s

/-- The parse-one-amount-cell block of the separate-column branch
(src/index.ts:430-467 for income, 470-507 for expense): guard on a present,
non-`'0'` cell, parse, and emit one transaction when strictly positive. -/
def stdCellTx (tp : TxType) (date : JSDate) (description recipient : String)
    (idx : Int) (row : List String) : List Transaction :=
  if idx ≠ -1 ∧ getCell row idx ≠ "" then
    let rawValue := jsTrim (getCell row idx)
    if rawValue ≠ "" ∧ rawValue ≠ "0" then
      let amount := parseLocaleAmount rawValue
      if 0 < amount then [⟨date, amount, description, recipient, tp⟩] else []
    else []
  else []

/-- The per-row body of `parseBankTransactions` (src/index.ts:363-509). -/
def processRow (currentBank : String) (config : BankConfig)
    (dateIndex incomeIndex expenseIndex purposeIndex recipientIndex : Int)
    (row : List String) : List Transaction :=
  if getCell row dateIndex = "" then []
  else
    let date := parseRowDate config.dateFormat (getCell row dateIndex)
    let description := orUnknown (getCell row purposeIndex)
    let recipient := orUnknown (getCell row recipientIndex)
    if currentBank = "erste" ∧ incomeIndex ≠ -1 then
      let rawValue := jsTrim (getCell row incomeIndex)
      if rawValue ≠ "" ∧ rawValue ≠ "0" then
        let amount := parseLocaleAmount rawValue
        if amount ≠ 0 then
          [⟨date, |amount|, description, recipient,
            if 0 < amount then TxType.income else TxType.expense⟩]
        else []
      else []
    else
      stdCellTx TxType.income date description recipient incomeIndex row ++
        stdCellTx TxType.expense date description recipient expenseIndex row

/-- `parseBankTransactions` (src/index.ts:328-510) on the first sheet:
resolve the column indices, abort with zero transactions when required
columns are missing, otherwise build transactions row by row. -/
def parseBankTransactions (currentBank : String) (sheet : ParsedData) :
    List Transaction :=
  match bankConfigs currentBank with
  | none => []
  | some config =>
    let headers := sheet.headers
    let dateIndex := findColumnIdx headers config.dateColumn
    let incomeIndex := findColumnIdx headers config.incomeColumn
    let expenseIndex := findColumnIdx headers config.expenseColumn
    let purposeIndex := findColumnIdx headers config.descriptionColumn
    let recipientIndex := findRecipientIdx headers config.recipientColumn
    let ok :=
      if currentBank = "erste" then
        ¬ (dateIndex = -1 ∨ incomeIndex = -1)
      else
        ¬ (dateIndex = -1 ∨ (incomeIndex = -1 ∧ expenseIndex = -1))
    if ok then
      sheet.rows.flatMap
        (processRow currentBank config dateIndex incomeIndex expenseIndex
          purposeIndex recipientIndex)
    else []

/-- Case-insensitive keyword test of the categorizer: the description (or
recipient) is uppercased and searched for an uppercase keyword. -/
def upperContains (s pat : String) : Bool :=
  containsL (s.toList.map jsToUpperChar) pat.toList

/-- `categorizeTransaction` (src/index.ts:541-582). -/
def categorizeTransaction (t : Transaction) : String :=
  let desc := t.description
  let recipient := t.recipient
  if t.type = TxType.expense then
    if upperContains desc "REVOLUT" || upperContains desc "PAYPAL" then
      "Digital Payments"
    else if upperContains desc "MARKET" || upperContains desc "TRGOVINA" ||
        upperContains desc "SPAR" || upperContains desc "MERCATOR" then
      "Groceries"
    else if upperContains desc "RESTAVRACIJA" ||
        upperContains desc "GOSTINSTVO" || upperContains desc "FOOD" then
      "Restaurants"
    else if upperContains desc "BENCIN" || upperContains desc "PETROL" ||
        upperContains desc "OMV" then
      "Gas"
    else if upperContains desc "TELEKOM" || upperContains desc "A1" ||
        upperContains desc "TELEMACH" then
      "Telecom"
    else if upperContains recipient "UNIVERZA" then "Education"
    else if upperContains desc "ZAVAROVANJE" then "Insurance"
    else if upperContains desc "NAJEMNINA" || upperContains desc "RENT" then
      "Rent"
    else "Other Expenses"
  else
    if upperContains desc "PLAČA" || upperContains desc "SALARY" ||
        upperContains desc "MEZDA" then
      "Salary"
    else if upperContains desc "DIVIDENDA" || upperContains desc "DIVIDEND" then
      "Dividends"
    else if upperContains desc "OBRESTI" || upperContains desc "INTEREST" then
      "Interest"
    else if upperContains desc "NAKAZILO" || upperContains desc "TRANSFER" then
      "Transfer"
    else if upperContains desc "REFUND" || upperContains desc "POVRAČILO" then
      "Refund"
    else if upperContains desc "FREELANCE" || upperContains desc "HONORAR" then
      "Freelance"
    else if upperContains desc "GIFT" || upperContains desc "DARILO" then
      "Gift"
    else "Other Income"

/-- One entry of the `CategoryData` object (src/index.ts:28-33), with its
key carried in `category`; the object's insertion-order keys are modelled
as an association list appended at the end. -/
structure CategoryBucket where
  category : String
  amount : ℚ
  transactions : List Transaction
deriving DecidableEq

/-- Upsert of one transaction into the category map
(src/index.ts:928-933). -/
def catInsert (m : List CategoryBucket) (key : String) (t : Transaction) :
    List CategoryBucket :=
  match m with
  | [] => [⟨key, t.amount, [t]⟩]
  | b :: rest =>
    if b.category = key then
      ⟨b.category, b.amount + t.amount, b.transactions ++ [t]⟩ :: rest
    else b :: catInsert rest key t

/-- `getCategoryData` (src/index.ts:924-937). -/
def getCategoryData (transactions : List Transaction) : List CategoryBucket :=
  transactions.foldl (fun m t => catInsert m (categorizeTransaction t) t) []

/-- One entry of the daily map (src/index.ts:41-46). -/
structure DailyData where
  date : String
  amount : ℚ
  count : ℕ
  transactions : List Transaction
deriving DecidableEq

/-- Models `t.date.toISOString().split('T')[0]`: `none` models the
`RangeError` thrown on an Invalid Date.  The exact rendering (zero padding,
UTC offset, calendar normalization) is not modelled; no claim depends on
the key's spelling, only on it being a function of the date. -/
def dateKey : JSDate → Option String
  | none => none
  | some (y, m, d) =>
    some (toString y ++ "-" ++ toString (m + 1) ++ "-" ++ toString d)

/-- Upsert of one transaction into the daily map (src/index.ts:904-911). -/
def dailyInsert (m : List DailyData) (key : String) (t : Transaction) :
    List DailyData :=
  match m with
  | [] => [⟨key, t.amount, 1, [t]⟩]
  | d :: rest =>
    if d.date = key then
      ⟨d.date, d.amount + t.amount, d.count + 1, d.transactions ++ [t]⟩ :: rest
    else d :: dailyInsert rest key t

/-- The accumulation loop of `getDailyData`; `none` when some transaction
has an invalid date (`toISOString` throws there). -/
def getDailyDataAux : List Transaction → List DailyData → Option (List DailyData)
  | [], m => some m
  | t :: rest, m =>
    match dateKey t.date with
    | none => none
    | some k => getDailyDataAux rest (dailyInsert m k t)

/-- Lexicographic (code-point) comparison of the character lists; on the
ASCII day keys produced here it agrees with `localeCompare` ordering. -/
def charListLe : List Char → List Char → Bool
  | [], _ => true
  | _ :: _, [] => false
  | a :: as, b :: bs =>
    if a = b then charListLe as bs else decide (a < b)

/-- String comparison used to model the daily sort. -/
def strLeB (a b : String) : Bool := charListLe a.toList b.toList

/-- Insertion step of the sort model. -/
def insertSorted (le : α → α → Bool) (a : α) : List α → List α
  | [] => [a]
  | b :: bs => if le a b then a :: b :: bs else b :: insertSorted le a bs

/-- Sort model for `Array.prototype.sort` with a comparator: a sort that
orders the elements by `le` (a permutation; tie order is not relied on). -/
def sortLe (le : α → α → Bool) (l : List α) : List α :=
  l.foldr (insertSorted le) []

/-- `getDailyData` (src/index.ts:898-917): accumulate per day, then sort
ascending by the date string. -/
def getDailyData (transactions : List Transaction) : Option (List DailyData) :=
  (getDailyDataAux transactions []).map
    (sortLe (fun a b => strLeB a.date b.date))

/-- `RecipientData` (src/index.ts:35-39). -/
structure RecipientData where
  name : String
  amount : ℚ
  count : ℕ
deriving DecidableEq

/-- Upsert of one transaction into the recipient map
(src/index.ts:847-854). -/
def recInsert (m : List RecipientData) (key : String) (t : Transaction) :
    List RecipientData :=
  match m with
  | [] => [⟨key, t.amount, 1⟩]
  | r :: rest =>
    if r.name = key then ⟨r.name, r.amount + t.amount, r.count + 1⟩ :: rest
    else r :: recInsert rest key t

/-- Legal-entity token stripping at the front:
`cleaned.replace(/^(PODJETJE|D\.O\.O\.|S\.P\.|K\.D\.)\s*/i, '')`
(the string is already uppercased, so the `i` flag is inert). -/
def dropTokenThenWs (tok l : List Char) : Option (List Char) :=
  if startsWithL l tok then some ((l.drop tok.length).dropWhile isWsChar)
  else none

/-- First matching alternative wins, as in the regex. -/
def stripLeadingLegal (l : List Char) : List Char :=
  match dropTokenThenWs "PODJETJE".toList l with
  | some r => r
  | none =>
    match dropTokenThenWs "D.O.O.".toList l with
    | some r => r
    | none =>
      match dropTokenThenWs "S.P.".toList l with
      | some r => r
      | none =>
        match dropTokenThenWs "K.D.".toList l with
        | some r => r
        | none => l

/-- `l` ends with `tok`. -/
def endsWithL (l tok : List Char) : Bool :=
  startsWithL l.reverse tok.reverse

/-- Drop trailing whitespace. -/
def dropTrailingWs (l : List Char) : List Char :=
  (l.reverse.dropWhile isWsChar).reverse

/-- Legal-entity token stripping at the back:
`cleaned.replace(/\s*(D\.O\.O\.|S\.P\.|K\.D\.)$/i, '')` — the token and the
whitespace run before it are removed. -/
def dropSuffixTokenWs (tok l : List Char) : Option (List Char) :=
  if endsWithL l tok then some (dropTrailingWs (l.take (l.length - tok.length)))
  else none

/-- First matching alternative wins (at most one can match the end). -/
def stripTrailingLegal (l : List Char) : List Char :=
  match dropSuffixTokenWs "D.O.O.".toList l with
  | some r => r
  | none =>
    match dropSuffixTokenWs "S.P.".toList l with
    | some r => r
    | none =>
      match dropSuffixTokenWs "K.D.".toList l with
      | some r => r
      | none => l

/-- Models `cleaned.replace(/\s+/g, ' ')`: every maximal whitespace run
becomes one space. -/
def collapseWs : List Char → List Char
  | [] => []
  | [c] => if isWsChar c then [' '] else [c]
  | c :: c2 :: cs =>
    if isWsChar c && isWsChar c2 then collapseWs (c2 :: cs)
    else (if isWsChar c then ' ' else c) :: collapseWs (c2 :: cs)

/-- The cleaning pipeline of `cleanRecipientName` before the length cap
(src/index.ts:881-888): trim, uppercase, strip legal-entity tokens,
collapse whitespace, trim. -/
def cleanRecipientCore (name : String) : List Char :=
  jsTrimL (collapseWs (stripTrailingLegal (stripLeadingLegal
    ((jsTrimL name.toList).map jsToUpperChar))))

/-- `cleanRecipientName` (src/index.ts:878-896). -/
def cleanRecipientName (name : String) : String :=
  if jsTrim name = "" then "Unknown"
  else
    let cleaned := cleanRecipientCore name
    let cleaned :=
      if 25 < cleaned.length then cleaned.take 22 ++ ('.' :: '.' :: '.' :: [])
      else cleaned
    if cleaned.isEmpty then "Unknown" else String.mk cleaned

/-- The discard test of `getTopRecipients` (src/index.ts:845). -/
def keepRecipientB (t : Transaction) : Bool :=
  let cleanName := cleanRecipientName t.recipient
  ¬ (cleanName = "Unknown" ∨ cleanName.length < 3)

/-- Ranking score (src/index.ts:862-864): `amount + count * 10`. -/
def recScore (r : RecipientData) : ℚ := r.amount + r.count * 10

/-- Comparator model for `(a, b) => scoreB - scoreA`: descending score. -/
def recLe (a b : RecipientData) : Bool := decide (recScore b ≤ recScore a)

/-- Display label `` `${r.name} (${r.count}x)` ``. -/
def fmtRecipient (r : RecipientData) : String × ℚ :=
  (r.name ++ " (" ++ toString r.count ++ "x)", r.amount)

/-- The recipient accumulation loop of `getTopRecipients`
(src/index.ts:843-855), skip style as in the source. -/
def recipientMapOf (transactions : List Transaction) : List RecipientData :=
  transactions.foldl
    (fun m t =>
      if keepRecipientB t then recInsert m (cleanRecipientName t.recipient) t
      else m)
    []

/-- `getTopRecipients` (src/index.ts:840-876): accumulate, rank by score
descending, keep the top 10, label.  The result object is modelled as the
association list of its insertion-ordered entries. -/
def getTopRecipients (transactions : List Transaction) : List (String × ℚ) :=
  ((sortLe recLe (recipientMapOf transactions)).take 10).map fmtRecipient

/-- Sum of the `amount` fields of a transaction list. -/
def sumAmounts (ts : List Transaction) : ℚ := (ts.map Transaction.amount).sum

/-- Sum of the category bucket amounts. -/
def catAmountSum (m : List CategoryBucket) : ℚ :=
  (m.map CategoryBucket.amount).sum

/-- All transactions stored across the category buckets. -/
def catJoin (m : List CategoryBucket) : List Transaction :=
  m.flatMap CategoryBucket.transactions

/-- Sum of the daily bucket amounts. -/
def dailySum (m : List DailyData) : ℚ := (m.map DailyData.amount).sum

/-- All transactions stored across the daily buckets. -/
def dailyJoin (m : List DailyData) : List Transaction :=
  m.flatMap DailyData.transactions

/-! ## Helper lemmas -/

lemma stringToList_nil {s : String} (h : s.toList = []) : s = "" := by
  cases s with
  | mk d =>
    cases d with
    | nil => rfl
    | cons c cs => simp [String.toList] at h

lemma containsCI_ne {h p : String} (hp : p ≠ "") (hc : containsCI h p = true) :
    h ≠ "" := by
  intro he
  subst he
  apply hp
  apply stringToList_nil
  have hh : (p.toList.map jsToUpperChar).isEmpty = true := hc
  have := List.isEmpty_iff.mp hh
  simpa using this

lemma normalizeAmountL_def (raw : List Char) :
    normalizeAmountL raw =
      if (stripAmountChars raw).contains ',' &&
          (stripAmountChars raw).contains '.' then
        if lastIdxOf (stripAmountChars raw) '.' <
            lastIdxOf (stripAmountChars raw) ',' then
          replaceFirstChar (removeAllChar (stripAmountChars raw) '.') ',' '.'
        else removeAllChar (stripAmountChars raw) ','
      else if (stripAmountChars raw).contains ',' then
        if (splitOnCharL (stripAmountChars raw) ',').length = 2 &&
            ((splitOnCharL (stripAmountChars raw) ',').getD 1 []).length ≤ 2
          then
          replaceFirstChar (stripAmountChars raw) ',' '.'
        else removeAllChar (stripAmountChars raw) ','
      else stripAmountChars raw := rfl

lemma findIdxL_eq_none {p : α → Bool} :
    ∀ {l : List α}, (∀ x ∈ l, p x = false) → findIdxL p l = none := by
  intro l
  induction l with
  | nil => intro _; rfl
  | cons a t ih =>
    intro h
    unfold findIdxL
    rw [h a (List.mem_cons_self a t)]
    simp [ih (fun x hx => h x (List.mem_cons_of_mem a hx))]

lemma findIdxL_eq_some {p : α → Bool} (d : α) :
    ∀ (l : List α) (i : ℕ), i < l.length → p (l.getD i d) = true →
      (∀ j, j < i → p (l.getD j d) = false) → findIdxL p l = some i := by
  intro l
  induction l with
  | nil => intro i hi _ _; simp at hi
  | cons a t ih =>
    intro i hi hp hprev
    cases i with
    | zero =>
      unfold findIdxL
      simp only [List.getD] at hp
      simp at hp
      simp [hp]
    | succ n =>
      have ha : p a = false := by
        have := hprev 0 (Nat.succ_pos n)
        simpa [List.getD] using this
      unfold findIdxL
      rw [ha]
      simp only [Bool.false_eq_true, if_false]
      rw [ih n (by simpa using hi) (by simpa [List.getD] using hp)
        (fun j hj => by simpa [List.getD] using hprev (j + 1) (by omega))]
      rfl

/-! ## Claim theorems -/

/-- C9, counterexample: the registry lookup for an unknown bank id does not
fail with any error value — it silently yields a missing configuration
(`none`, modelling JS `undefined`), and `getCurrency` silently falls back
to the default currency `'€'`.  This refutes the claim that the lookup
"fails with an UnknownBankError surfaced to the caller … rather than
silently yielding a default or missing configuration". -/
theorem claim_C9_counterexample :
    bankConfigs "revolut" = none ∧ getCurrency "revolut" = "€" := by
  constructor <;> decide

/-- C9 (amended): for every bank identifier that is not one of `nkbm-otp`,
`nlb`, `intesa`, `erste`, the registry lookup yields no configuration
(`none`); no error of any kind is raised, and the currency accessor
silently falls back to `'€'` for such identifiers. -/
theorem claim_C9 : ∀ bankId : String,
    ((bankConfigs bankId).isSome = true ↔
      bankId = "nkbm-otp" ∨ bankId = "nlb" ∨ bankId = "intesa" ∨
        bankId = "erste") ∧
    (bankConfigs bankId = none → getCurrency bankId = "€") := by
  intro bankId
  constructor
  · unfold bankConfigs
    split_ifs with h1 h2 h3 h4 <;> simp_all
  · intro h
    unfold getCurrency
    rw [h]

/-- C9, witness for the amended theorem at the concrete id "foo". -/
theorem claim_C9_witness : bankConfigs "foo" = none ∧ getCurrency "foo" = "€" :=
  ⟨by decide, (claim_C9 "foo").2 (by decide)⟩

/-- C2: locale-ambiguous numeric parsing.  General part: after stripping to
digits, `,`, `.`, `-`, when both separators occur the one occurring later
is treated as the decimal separator and the other removed; with only `,`
present, the comma is decimal exactly when the split yields two parts whose
final part has length at most 2, otherwise all commas are removed.
Concrete part: `"1,234.56"` and `"1.234,56"` both parse to `1234.56`,
`"45,00"` to `45`, `"45,000"` to `45000`. -/
theorem claim_C2 :
    (∀ raw : List Char,
      ((stripAmountChars raw).contains ',' = true →
        (stripAmountChars raw).contains '.' = true →
        normalizeAmountL raw =
          if lastIdxOf (stripAmountChars raw) '.' <
              lastIdxOf (stripAmountChars raw) ',' then
            replaceFirstChar (removeAllChar (stripAmountChars raw) '.') ',' '.'
          else removeAllChar (stripAmountChars raw) ',') ∧
      ((stripAmountChars raw).contains ',' = true →
        (stripAmountChars raw).contains '.' = false →
        if (splitOnCharL (stripAmountChars raw) ',').length = 2 ∧
            ((splitOnCharL (stripAmountChars raw) ',').getLastD []).length ≤ 2
          then
          normalizeAmountL raw =
            replaceFirstChar (stripAmountChars raw) ',' '.'
        else
          normalizeAmountL raw = removeAllChar (stripAmountChars raw) ',')) ∧
    parseLocaleAmount "1,234.56" = 1234.56 ∧
    parseLocaleAmount "1.234,56" = 1234.56 ∧
    parseLocaleAmount "45,00" = 45 ∧
    parseLocaleAmount "45,000" = 45000 := by
  refine ⟨?_, ?_, ?_, ?_, ?_⟩
  · intro raw
    constructor
    · intro h1 h2
      rw [normalizeAmountL_def, h1, h2]
      rfl
    · intro h1 h2
      rw [normalizeAmountL_def, h1, h2]
      simp only [Bool.and_false, Bool.false_eq_true, if_false, if_true]
      simp only [Bool.and_eq_true, decide_eq_true_eq]
      by_cases hlen : (splitOnCharL (stripAmountChars raw) ',').length = 2
      · have hlast : (splitOnCharL (stripAmountChars raw) ',').getLastD [] =
            (splitOnCharL (stripAmountChars raw) ',').getD 1 [] := by
          obtain ⟨a, b, hab⟩ := List.length_eq_two.mp hlen
          rw [hab]
          rfl
        by_cases hle :
            ((splitOnCharL (stripAmountChars raw) ',').getD 1 []).length ≤ 2
        · rw [if_pos ⟨hlen, by rw [hlast]; exact hle⟩, if_pos ⟨hlen, hle⟩]
        · rw [if_neg (by rintro ⟨-, hc⟩; rw [hlast] at hc; exact hle hc),
            if_neg (by rintro ⟨-, hc⟩; exact hle hc)]
      · rw [if_neg (by rintro ⟨hc, -⟩; exact hlen hc),
          if_neg (by rintro ⟨hc, -⟩; exact hlen hc)]
  · have h : normalizeAmountL "1,234.56".toList = "1234.56".toList := by decide
    unfold parseLocaleAmount
    rw [h]
    have h2 : jsParseFloatQ "1234.56".toList =
        some ((digitsVal ['1', '2', '3', '4'] : ℚ) +
          (digitsVal ['5', '6'] : ℚ) /
            (10 : ℚ) ^ (['5', '6'] : List Char).length) := rfl
    rw [h2]
    have d1 : digitsVal ['1', '2', '3', '4'] = 1234 := by decide
    have d2 : digitsVal ['5', '6'] = 56 := by decide
    rw [d1, d2]
    norm_num
  · have h : normalizeAmountL "1.234,56".toList = "1234.56".toList := by decide
    unfold parseLocaleAmount
    rw [h]
    have h2 : jsParseFloatQ "1234.56".toList =
        some ((digitsVal ['1', '2', '3', '4'] : ℚ) +
          (digitsVal ['5', '6'] : ℚ) /
            (10 : ℚ) ^ (['5', '6'] : List Char).length) := rfl
    rw [h2]
    have d1 : digitsVal ['1', '2', '3', '4'] = 1234 := by decide
    have d2 : digitsVal ['5', '6'] = 56 := by decide
    rw [d1, d2]
    norm_num
  · have h : normalizeAmountL "45,00".toList = "45.00".toList := by decide
    unfold parseLocaleAmount
    rw [h]
    have h2 : jsParseFloatQ "45.00".toList =
        some ((digitsVal ['4', '5'] : ℚ) +
          (digitsVal ['0', '0'] : ℚ) /
            (10 : ℚ) ^ (['0', '0'] : List Char).length) := rfl
    rw [h2]
    have d1 : digitsVal ['4', '5'] = 45 := by decide
    have d2 : digitsVal ['0', '0'] = 0 := by decide
    rw [d1, d2]
    norm_num
  · have h : normalizeAmountL "45,000".toList = "45000".toList := by decide
    unfold parseLocaleAmount
    rw [h]
    have h2 : jsParseFloatQ "45000".toList =
        some (digitsVal ['4', '5', '0', '0', '0'] : ℚ) := rfl
    rw [h2]
    have d1 : digitsVal ['4', '5', '0', '0', '0'] = 45000 := by decide
    rw [d1]
    norm_num

/-- C2, witness: the general branch rules applied at the concrete inputs
`"1,234.56"` (both separators present) and `"45,00"` (comma only). -/
theorem claim_C2_witness :
    (stripAmountChars "1,234.56".toList).contains ',' = true ∧
    (stripAmountChars "1,234.56".toList).contains '.' = true ∧
    normalizeAmountL "1,234.56".toList =
      (if lastIdxOf (stripAmountChars "1,234.56".toList) '.' <
          lastIdxOf (stripAmountChars "1,234.56".toList) ',' then
        replaceFirstChar
          (removeAllChar (stripAmountChars "1,234.56".toList) '.') ',' '.'
      else removeAllChar (stripAmountChars "1,234.56".toList) ',') ∧
    (stripAmountChars "45,00".toList).contains ',' = true ∧
    (stripAmountChars "45,00".toList).contains '.' = false ∧
    (if (splitOnCharL (stripAmountChars "45,00".toList) ',').length = 2 ∧
        ((splitOnCharL (stripAmountChars "45,00".toList) ',').getLastD
          []).length ≤ 2 then
      normalizeAmountL "45,00".toList =
        replaceFirstChar (stripAmountChars "45,00".toList) ',' '.'
    else
      normalizeAmountL "45,00".toList =
        removeAllChar (stripAmountChars "45,00".toList) ',') :=
  ⟨by decide, by decide,
    (claim_C2.1 "1,234.56".toList).1 (by decide) (by decide),
    by decide, by decide,
    (claim_C2.1 "45,00".toList).2 (by decide) (by decide)⟩

lemma stringMk_eq_empty {l : List Char} : String.mk l = "" ↔ l = [] := by
  constructor
  · intro h
    have h2 : (String.mk l).toList = ("" : String).toList := by rw [h]
    simpa [String.toList] using h2
  · intro h
    rw [h]

lemma cleanRecipientName_def (name : String) :
    cleanRecipientName name =
      if jsTrim name = "" then "Unknown"
      else if (if 25 < (cleanRecipientCore name).length then
            (cleanRecipientCore name).take 22 ++ ('.' :: '.' :: '.' :: [])
          else cleanRecipientCore name).isEmpty then "Unknown"
      else String.mk (if 25 < (cleanRecipientCore name).length then
            (cleanRecipientCore name).take 22 ++ ('.' :: '.' :: '.' :: [])
          else cleanRecipientCore name) := rfl

lemma cleanRecipientCore_of_trim_nil {name : String}
    (h : jsTrim name = "") : cleanRecipientCore name = [] := by
  have h0 : jsTrimL name.toList = [] := by
    have h2 := congrArg String.toList h
    simpa [jsTrim, String.toList] using h2
  unfold cleanRecipientCore
  rw [h0]
  rfl

/-- C10: recipient-name normalization is total and bounded — the result is
never empty and never longer than 25 characters; an input that trims to
nothing (or whose cleaned core is empty after token stripping) yields the
literal `"Unknown"`; a cleaned core longer than 25 characters is replaced
by its first 22 characters followed by `"..."`. -/
theorem claim_C10 : ∀ name : String,
    cleanRecipientName name ≠ "" ∧
    (cleanRecipientName name).length ≤ 25 ∧
    (jsTrim name = "" → cleanRecipientName name = "Unknown") ∧
    (cleanRecipientCore name = [] → cleanRecipientName name = "Unknown") ∧
    (25 < (cleanRecipientCore name).length →
      cleanRecipientName name =
        String.mk ((cleanRecipientCore name).take 22 ++
          ('.' :: '.' :: '.' :: []))) := by
  intro name
  by_cases ht : jsTrim name = ""
  · have hval : cleanRecipientName name = "Unknown" := by
      rw [cleanRecipientName_def, if_pos ht]
    have hcore := cleanRecipientCore_of_trim_nil ht
    refine ⟨by rw [hval]; decide, by rw [hval]; decide, fun _ => hval,
      fun _ => hval, ?_⟩
    intro h25
    rw [hcore] at h25
    simp at h25
  · by_cases h25 : 25 < (cleanRecipientCore name).length
    · have hval : cleanRecipientName name =
          String.mk ((cleanRecipientCore name).take 22 ++
            ('.' :: '.' :: '.' :: [])) := by
        rw [cleanRecipientName_def, if_neg ht, if_pos h25, if_neg (by simp)]
      refine ⟨?_, ?_, fun h => absurd h ht, ?_, fun _ => hval⟩
      · rw [hval, Ne, stringMk_eq_empty]
        simp
      · rw [hval]
        have hlen : (String.mk ((cleanRecipientCore name).take 22 ++
            ('.' :: '.' :: '.' :: []))).length =
            ((cleanRecipientCore name).take 22 ++
              ('.' :: '.' :: '.' :: [])).length := rfl
        rw [hlen]
        simp [List.length_take]
      · intro hc
        rw [hc] at h25
        simp at h25
    · by_cases hcE : cleanRecipientCore name = []
      · have hval : cleanRecipientName name = "Unknown" := by
          rw [cleanRecipientName_def, if_neg ht, if_neg h25,
            if_pos (by rw [hcE]; rfl)]
        exact ⟨by rw [hval]; decide, by rw [hval]; decide,
          fun h => absurd h ht, fun _ => hval, fun h => absurd h h25⟩
      · have hval : cleanRecipientName name =
            String.mk (cleanRecipientCore name) := by
          rw [cleanRecipientName_def, if_neg ht, if_neg h25,
            if_neg (by simp [List.isEmpty_iff, hcE])]
        refine ⟨?_, ?_, fun h => absurd h ht, fun h => absurd h hcE,
          fun h => absurd h h25⟩
        · rw [hval, Ne, stringMk_eq_empty]
          exact hcE
        · rw [hval]
          have hlen : (String.mk (cleanRecipientCore name)).length =
              (cleanRecipientCore name).length := rfl
          rw [hlen]
          omega

/-- C10, witness: an empty input and a token-only input normalize to
`"Unknown"`; a 26-character input is truncated to 22 characters plus the
ellipsis. -/
theorem claim_C10_witness :
    jsTrim "" = "" ∧ cleanRecipientName "" = "Unknown" ∧
    cleanRecipientCore "D.O.O." = [] ∧
    cleanRecipientName "D.O.O." = "Unknown" ∧
    25 < (cleanRecipientCore "AAAAAAAAAAAAAAAAAAAAAAAAAB").length ∧
    cleanRecipientName "AAAAAAAAAAAAAAAAAAAAAAAAAB" =
      String.mk ((cleanRecipientCore "AAAAAAAAAAAAAAAAAAAAAAAAAB").take 22 ++
        ('.' :: '.' :: '.' :: [])) :=
  ⟨by decide, (claim_C10 "").2.2.1 (by decide), by decide,
    (claim_C10 "D.O.O.").2.2.2.1 (by decide), by decide,
    (claim_C10 "AAAAAAAAAAAAAAAAAAAAAAAAAB").2.2.2.2 (by decide)⟩

/-- C5: a file qualifies as a transaction file iff some header cell of the
first sheet contains the active schema's date-column pattern
(case-insensitively) and some header cell contains the income-column or
the expense-column pattern; a file with no parsed sheets never qualifies,
and only the first sheet's headers are consulted.  (The schema patterns
are non-empty for every registry entry; the hypotheses record this.) -/
theorem claim_C5 : ∀ (config : BankConfig) (parsedSheets : List ParsedData),
    config.dateColumn ≠ "" → config.incomeColumn ≠ "" →
    config.expenseColumn ≠ "" →
    (isBankTransactionFile config parsedSheets = true ↔
      ∃ s rest, parsedSheets = s :: rest ∧
        (∃ h ∈ s.headers, containsCI h config.dateColumn = true) ∧
        ((∃ h ∈ s.headers, containsCI h config.incomeColumn = true) ∨
          (∃ h ∈ s.headers, containsCI h config.expenseColumn = true))) := by
  intro config sheets hd hi he
  have key : ∀ p : String, p ≠ "" → ∀ hs : List String,
      (hasColumnCI hs p = true ↔ ∃ h ∈ hs, containsCI h p = true) := by
    intro p hp hs
    unfold hasColumnCI
    rw [List.any_eq_true]
    constructor
    · rintro ⟨h, hmem, hh⟩
      rw [Bool.and_eq_true] at hh
      exact ⟨h, hmem, hh.2⟩
    · rintro ⟨h, hmem, hh⟩
      refine ⟨h, hmem, ?_⟩
      rw [Bool.and_eq_true]
      refine ⟨?_, hh⟩
      simpa using containsCI_ne hp hh
  cases sheets with
  | nil =>
    constructor
    · intro hq
      exact absurd hq (by simp [isBankTransactionFile])
    · rintro ⟨s, rest, heq, -⟩
      cases heq
  | cons s rest =>
    show (hasColumnCI s.headers config.dateColumn &&
        (hasColumnCI s.headers config.incomeColumn ||
          hasColumnCI s.headers config.expenseColumn)) = true ↔ _
    rw [Bool.and_eq_true, Bool.or_eq_true]
    constructor
    · rintro ⟨h1, h2⟩
      refine ⟨s, rest, rfl, (key _ hd s.headers).mp h1, ?_⟩
      rcases h2 with h2 | h2
      · exact Or.inl ((key _ hi s.headers).mp h2)
      · exact Or.inr ((key _ he s.headers).mp h2)
    · rintro ⟨s', rest', heq, hdate, hio⟩
      have hs : s' = s := by injection heq with a _; exact a.symm
      subst hs
      refine ⟨(key _ hd s'.headers).mpr hdate, ?_⟩
      rcases hio with hio | hio
      · exact Or.inl ((key _ hi s'.headers).mpr hio)
      · exact Or.inr ((key _ he s'.headers).mpr hio)

/-- C5, witness: a concrete NLB sheet whose headers contain the date and
income patterns qualifies. -/
theorem claim_C5_witness :
    isBankTransactionFile nlbConfig
      [⟨"s", ["datum x", "prilivi"], []⟩] = true :=
  (claim_C5 nlbConfig [⟨"s", ["datum x", "prilivi"], []⟩] (by decide)
      (by decide) (by decide)).mpr
    ⟨⟨"s", ["datum x", "prilivi"], []⟩, [], rfl,
      ⟨"datum x", by decide, by decide⟩,
      Or.inl ⟨"prilivi", by decide, by decide⟩⟩

/-- C6: header-row discovery.  For the Erste schema the header row is the
first row containing a cell whose raw text contains `"Datum valute"` or
`"Iznos"` (case-sensitive substring; these literals are exactly the
schema's date-column and amount-column patterns); earlier rows are
discarded and later rows become data rows.  When no row matches — and for
every other bank always — row 0 is the header and the rest are data. -/
theorem claim_C6 : ∀ jsonData : List (List String), jsonData ≠ [] →
    (ersteConfig.dateColumn = "Datum valute" ∧
      ersteConfig.incomeColumn = "Iznos") ∧
    (∀ bank, bank ≠ "erste" →
      splitHeaderRows bank jsonData =
        some (jsonData.headD [], jsonData.drop 1)) ∧
    ((∀ r ∈ jsonData, isErsteHeaderRow r = false) →
      splitHeaderRows "erste" jsonData =
        some (jsonData.headD [], jsonData.drop 1)) ∧
    (∀ i, i < jsonData.length → isErsteHeaderRow (jsonData.getD i []) = true →
      (∀ j, j < i → isErsteHeaderRow (jsonData.getD j []) = false) →
      splitHeaderRows "erste" jsonData =
        some (jsonData.getD i [], jsonData.drop (i + 1))) := by
  intro g hg
  have hne : ¬ g.isEmpty = true := by
    cases g with
    | nil => exact absurd rfl hg
    | cons a t => simp
  refine ⟨⟨rfl, rfl⟩, ?_, ?_, ?_⟩
  · intro bank hb
    unfold splitHeaderRows
    rw [if_neg hne, if_neg hb]
  · intro hall
    unfold splitHeaderRows
    rw [if_neg hne, if_pos rfl, findIdxL_eq_none hall]
  · intro i hi hp hprev
    unfold splitHeaderRows
    rw [if_neg hne, if_pos rfl, findIdxL_eq_some [] g i hi hp hprev]

/-- C6, witness: a grid with a metadata row before the row containing
`"Iznos"`; discovery picks row 1 and keeps only the following rows. -/
theorem claim_C6_witness :
    splitHeaderRows "erste" [["meta"], ["x", "Iznos tu"], ["d"]] =
      some (["x", "Iznos tu"], [["d"]]) :=
  (claim_C6 [["meta"], ["x", "Iznos tu"], ["d"]] (by decide)).2.2.2 1
    (by decide) (by decide)
    (fun j hj => by
      have hj0 : j = 0 := by omega
      subst hj0
      decide)

lemma getCell_neg_one (row : List String) : getCell row (-1) = "" := rfl

lemma amount_pos_guards {row : List String} {idx : Int}
    (h : parseLocaleAmount (jsTrim (getCell row idx)) ≠ 0) :
    idx ≠ -1 ∧ getCell row idx ≠ "" ∧ jsTrim (getCell row idx) ≠ "" ∧
      jsTrim (getCell row idx) ≠ "0" := by
  refine ⟨?_, ?_, ?_, ?_⟩
  · intro he
    exact h (by rw [he, getCell_neg_one]; decide)
  · intro he
    exact h (by rw [he]; decide)
  · intro he
    exact h (by rw [he]; decide)
  · intro he
    exact h (by rw [he]; decide)

lemma stdCellTx_eq (tp : TxType) (date : JSDate) (d r : String) (idx : Int)
    (row : List String) :
    stdCellTx tp date d r idx row =
      if 0 < parseLocaleAmount (jsTrim (getCell row idx)) then
        [⟨date, parseLocaleAmount (jsTrim (getCell row idx)), d, r, tp⟩]
      else [] := by
  unfold stdCellTx
  by_cases h1 : idx ≠ -1 ∧ getCell row idx ≠ ""
  · rw [if_pos h1]
    by_cases h2 : jsTrim (getCell row idx) ≠ "" ∧
        jsTrim (getCell row idx) ≠ "0"
    · rw [if_pos h2]
    · rw [if_neg h2]
      have hz : parseLocaleAmount (jsTrim (getCell row idx)) = 0 := by
        rcases not_and_or.mp h2 with h3 | h3
        · rw [not_not.mp h3]
          decide
        · rw [not_not.mp h3]
          decide
      rw [hz]
      simp
  · rw [if_neg h1]
    have hz : parseLocaleAmount (jsTrim (getCell row idx)) = 0 := by
      rcases not_and_or.mp h1 with h3 | h3
      · rw [not_not.mp h3, getCell_neg_one]
        decide
      · rw [not_not.mp h3]
        decide
    rw [hz]
    simp

lemma processRow_def (currentBank : String) (config : BankConfig)
    (dIdx iIdx eIdx pIdx rIdx : Int) (row : List String) :
    processRow currentBank config dIdx iIdx eIdx pIdx rIdx row =
      if getCell row dIdx = "" then []
      else if currentBank = "erste" ∧ iIdx ≠ -1 then
        (if jsTrim (getCell row iIdx) ≠ "" ∧
            jsTrim (getCell row iIdx) ≠ "0" then
          if parseLocaleAmount (jsTrim (getCell row iIdx)) ≠ 0 then
            [⟨parseRowDate config.dateFormat (getCell row dIdx),
              |parseLocaleAmount (jsTrim (getCell row iIdx))|,
              orUnknown (getCell row pIdx), orUnknown (getCell row rIdx),
              if 0 < parseLocaleAmount (jsTrim (getCell row iIdx)) then
                TxType.income else TxType.expense⟩]
          else []
        else [])
      else
        stdCellTx TxType.income
          (parseRowDate config.dateFormat (getCell row dIdx))
          (orUnknown (getCell row pIdx)) (orUnknown (getCell row rIdx))
          iIdx row ++
        stdCellTx TxType.expense
          (parseRowDate config.dateFormat (getCell row dIdx))
          (orUnknown (getCell row pIdx)) (orUnknown (getCell row rIdx))
          eIdx row := rfl

lemma processRow_erste_eq (config : BankConfig)
    (dIdx iIdx eIdx pIdx rIdx : Int) (row : List String)
    (hd : getCell row dIdx ≠ "") (hi : iIdx ≠ -1) :
    processRow "erste" config dIdx iIdx eIdx pIdx rIdx row =
      if parseLocaleAmount (jsTrim (getCell row iIdx)) ≠ 0 then
        [⟨parseRowDate config.dateFormat (getCell row dIdx),
          |parseLocaleAmount (jsTrim (getCell row iIdx))|,
          orUnknown (getCell row pIdx), orUnknown (getCell row rIdx),
          if 0 < parseLocaleAmount (jsTrim (getCell row iIdx)) then
            TxType.income else TxType.expense⟩]
      else [] := by
  rw [processRow_def, if_neg hd, if_pos ⟨rfl, hi⟩]
  by_cases h2 : jsTrim (getCell row iIdx) ≠ "" ∧ jsTrim (getCell row iIdx) ≠ "0"
  · rw [if_pos h2]
  · rw [if_neg h2]
    have hz : parseLocaleAmount (jsTrim (getCell row iIdx)) = 0 := by
      rcases not_and_or.mp h2 with h3 | h3
      · rw [not_not.mp h3]
        decide
      · rw [not_not.mp h3]
        decide
    rw [hz]
    simp

lemma processRow_std_eq (currentBank : String) (config : BankConfig)
    (dIdx iIdx eIdx pIdx rIdx : Int) (row : List String)
    (hd : getCell row dIdx ≠ "")
    (hb : ¬ (currentBank = "erste" ∧ iIdx ≠ -1)) :
    processRow currentBank config dIdx iIdx eIdx pIdx rIdx row =
      (if 0 < parseLocaleAmount (jsTrim (getCell row iIdx)) then
        [⟨parseRowDate config.dateFormat (getCell row dIdx),
          parseLocaleAmount (jsTrim (getCell row iIdx)),
          orUnknown (getCell row pIdx), orUnknown (getCell row rIdx),
          TxType.income⟩]
      else []) ++
      (if 0 < parseLocaleAmount (jsTrim (getCell row eIdx)) then
        [⟨parseRowDate config.dateFormat (getCell row dIdx),
          parseLocaleAmount (jsTrim (getCell row eIdx)),
          orUnknown (getCell row pIdx), orUnknown (getCell row rIdx),
          TxType.expense⟩]
      else []) := by
  rw [processRow_def, if_neg hd, if_neg hb, stdCellTx_eq, stdCellTx_eq]

/-- C3: transaction-builder polarity.  Erste (single signed amount): a row
with a non-empty date cell whose parsed amount is nonzero yields exactly
one transaction, income iff the amount is positive, storing the absolute
value.  Separate-column schemas: a strictly positive parsed income cell
yields one income transaction and a strictly positive parsed expense cell
one expense transaction (zero, one, or two per row, sharing date,
description and recipient); non-positive parsed values in either column
yield nothing. -/
theorem claim_C3 : ∀ (config : BankConfig) (dIdx iIdx eIdx pIdx rIdx : Int)
    (row : List String), getCell row dIdx ≠ "" →
    (iIdx ≠ -1 → parseLocaleAmount (jsTrim (getCell row iIdx)) ≠ 0 →
      processRow "erste" config dIdx iIdx eIdx pIdx rIdx row =
        [⟨parseRowDate config.dateFormat (getCell row dIdx),
          |parseLocaleAmount (jsTrim (getCell row iIdx))|,
          orUnknown (getCell row pIdx), orUnknown (getCell row rIdx),
          if 0 < parseLocaleAmount (jsTrim (getCell row iIdx)) then
            TxType.income else TxType.expense⟩]) ∧
    (∀ currentBank, currentBank ≠ "erste" →
      processRow currentBank config dIdx iIdx eIdx pIdx rIdx row =
        (if 0 < parseLocaleAmount (jsTrim (getCell row iIdx)) then
          [⟨parseRowDate config.dateFormat (getCell row dIdx),
            parseLocaleAmount (jsTrim (getCell row iIdx)),
            orUnknown (getCell row pIdx), orUnknown (getCell row rIdx),
            TxType.income⟩]
        else []) ++
        (if 0 < parseLocaleAmount (jsTrim (getCell row eIdx)) then
          [⟨parseRowDate config.dateFormat (getCell row dIdx),
            parseLocaleAmount (jsTrim (getCell row eIdx)),
            orUnknown (getCell row pIdx), orUnknown (getCell row rIdx),
            TxType.expense⟩]
        else [])) := by
  intro config dIdx iIdx eIdx pIdx rIdx row hd
  constructor
  · intro hi hnz
    rw [processRow_erste_eq config dIdx iIdx eIdx pIdx rIdx row hd hi,
      if_pos hnz]
  · intro currentBank hb
    exact processRow_std_eq currentBank config dIdx iIdx eIdx pIdx rIdx row hd
      (fun hc => hb hc.1)

/-- C3, witness: a signed Erste row with amount `-7` yields one expense
transaction of amount `7`; an NLB row with income `5` and expense `3`
yields one income and one expense transaction sharing date, description
and recipient. -/
theorem claim_C3_witness :
    getCell ["01.01.2024", "-7", "", "d", "r"] 0 ≠ "" ∧
    parseLocaleAmount
      (jsTrim (getCell ["01.01.2024", "-7", "", "d", "r"] 1)) ≠ 0 ∧
    processRow "erste" ersteConfig 0 1 2 3 4
      ["01.01.2024", "-7", "", "d", "r"] =
      [⟨parseRowDate ersteConfig.dateFormat
          (getCell ["01.01.2024", "-7", "", "d", "r"] 0),
        |parseLocaleAmount
          (jsTrim (getCell ["01.01.2024", "-7", "", "d", "r"] 1))|,
        orUnknown (getCell ["01.01.2024", "-7", "", "d", "r"] 3),
        orUnknown (getCell ["01.01.2024", "-7", "", "d", "r"] 4),
        if 0 < parseLocaleAmount
            (jsTrim (getCell ["01.01.2024", "-7", "", "d", "r"] 1)) then
          TxType.income else TxType.expense⟩] ∧
    processRow "nlb" nlbConfig 0 1 2 3 4 ["01.01.2024", "5", "3", "d", "r"] =
      (if 0 < parseLocaleAmount
          (jsTrim (getCell ["01.01.2024", "5", "3", "d", "r"] 1)) then
        [⟨parseRowDate nlbConfig.dateFormat
            (getCell ["01.01.2024", "5", "3", "d", "r"] 0),
          parseLocaleAmount
            (jsTrim (getCell ["01.01.2024", "5", "3", "d", "r"] 1)),
          orUnknown (getCell ["01.01.2024", "5", "3", "d", "r"] 3),
          orUnknown (getCell ["01.01.2024", "5", "3", "d", "r"] 4),
          TxType.income⟩]
      else []) ++
      (if 0 < parseLocaleAmount
          (jsTrim (getCell ["01.01.2024", "5", "3", "d", "r"] 2)) then
        [⟨parseRowDate nlbConfig.dateFormat
            (getCell ["01.01.2024", "5", "3", "d", "r"] 0),
          parseLocaleAmount
            (jsTrim (getCell ["01.01.2024", "5", "3", "d", "r"] 2)),
          orUnknown (getCell ["01.01.2024", "5", "3", "d", "r"] 3),
          orUnknown (getCell ["01.01.2024", "5", "3", "d", "r"] 4),
          TxType.expense⟩]
      else []) :=
  ⟨by decide, by decide,
    (claim_C3 ersteConfig 0 1 2 3 4 ["01.01.2024", "-7", "", "d", "r"]
      (by decide)).1 (by decide) (by decide),
    (claim_C3 nlbConfig 0 1 2 3 4 ["01.01.2024", "5", "3", "d", "r"]
      (by decide)).2 "nlb" (by decide)⟩

lemma parseBankTransactions_none {currentBank : String} {sheet : ParsedData}
    (h : bankConfigs currentBank = none) :
    parseBankTransactions currentBank sheet = [] := by
  unfold parseBankTransactions
  rw [h]

lemma parseBankTransactions_some {currentBank : String} {sheet : ParsedData}
    {config : BankConfig} (h : bankConfigs currentBank = some config) :
    parseBankTransactions currentBank sheet =
      if (if currentBank = "erste" then
          ¬ (findColumnIdx sheet.headers config.dateColumn = -1 ∨
            findColumnIdx sheet.headers config.incomeColumn = -1)
        else
          ¬ (findColumnIdx sheet.headers config.dateColumn = -1 ∨
            (findColumnIdx sheet.headers config.incomeColumn = -1 ∧
              findColumnIdx sheet.headers config.expenseColumn = -1))) then
        sheet.rows.flatMap
          (processRow currentBank config
            (findColumnIdx sheet.headers config.dateColumn)
            (findColumnIdx sheet.headers config.incomeColumn)
            (findColumnIdx sheet.headers config.expenseColumn)
            (findColumnIdx sheet.headers config.descriptionColumn)
            (findRecipientIdx sheet.headers config.recipientColumn))
      else [] := by
  unfold parseBankTransactions
  rw [h]

lemma mem_processRow_amount_pos {currentBank : String} {config : BankConfig}
    {dIdx iIdx eIdx pIdx rIdx : Int} {row : List String} {t : Transaction}
    (h : t ∈ processRow currentBank config dIdx iIdx eIdx pIdx rIdx row) :
    0 < t.amount := by
  rw [processRow_def] at h
  by_cases hd : getCell row dIdx = ""
  · rw [if_pos hd] at h
    simp at h
  · rw [if_neg hd] at h
    by_cases hb : currentBank = "erste" ∧ iIdx ≠ -1
    · rw [if_pos hb] at h
      by_cases h2 : jsTrim (getCell row iIdx) ≠ "" ∧
          jsTrim (getCell row iIdx) ≠ "0"
      · rw [if_pos h2] at h
        by_cases hz : parseLocaleAmount (jsTrim (getCell row iIdx)) ≠ 0
        · rw [if_pos hz] at h
          rw [List.mem_singleton.mp h]
          exact abs_pos.mpr hz
        · rw [if_neg hz] at h
          simp at h
      · rw [if_neg h2] at h
        simp at h
    · rw [if_neg hb, stdCellTx_eq, stdCellTx_eq] at h
      rcases List.mem_append.mp h with hm | hm
      · by_cases hp : 0 < parseLocaleAmount (jsTrim (getCell row iIdx))
        · rw [if_pos hp] at hm
          rw [List.mem_singleton.mp hm]
          exact hp
        · rw [if_neg hp] at hm
          simp at hm
      · by_cases hp : 0 < parseLocaleAmount (jsTrim (getCell row eIdx))
        · rw [if_pos hp] at hm
          rw [List.mem_singleton.mp hm]
          exact hp
        · rw [if_neg hp] at hm
          simp at hm

/-- C4: positive-amount invariant — every transaction ever stored by the
builder has `amount > 0`, and a row whose amount cells parse to zero (or
to nothing) produces no transaction, for both schema kinds. -/
theorem claim_C4 :
    (∀ (currentBank : String) (sheet : ParsedData),
      ∀ t ∈ parseBankTransactions currentBank sheet, 0 < t.amount) ∧
    (∀ (currentBank : String) (config : BankConfig)
      (dIdx iIdx eIdx pIdx rIdx : Int) (row : List String),
      parseLocaleAmount (jsTrim (getCell row iIdx)) = 0 →
      parseLocaleAmount (jsTrim (getCell row eIdx)) = 0 →
      processRow currentBank config dIdx iIdx eIdx pIdx rIdx row = []) := by
  constructor
  · intro currentBank sheet t ht
    cases hcfg : bankConfigs currentBank with
    | none =>
      rw [parseBankTransactions_none hcfg] at ht
      simp at ht
    | some config =>
      rw [parseBankTransactions_some hcfg] at ht
      by_cases hok : (if currentBank = "erste" then
          ¬ (findColumnIdx sheet.headers config.dateColumn = -1 ∨
            findColumnIdx sheet.headers config.incomeColumn = -1)
        else
          ¬ (findColumnIdx sheet.headers config.dateColumn = -1 ∨
            (findColumnIdx sheet.headers config.incomeColumn = -1 ∧
              findColumnIdx sheet.headers config.expenseColumn = -1)))
      · rw [if_pos hok] at ht
        obtain ⟨row, -, hmem⟩ := List.mem_flatMap.mp ht
        exact mem_processRow_amount_pos hmem
      · rw [if_neg hok] at ht
        simp at ht
  · intro currentBank config dIdx iIdx eIdx pIdx rIdx row hzi hze
    rw [processRow_def]
    by_cases hd : getCell row dIdx = ""
    · rw [if_pos hd]
    · rw [if_neg hd]
      by_cases hb : currentBank = "erste" ∧ iIdx ≠ -1
      · rw [if_pos hb]
        by_cases h2 : jsTrim (getCell row iIdx) ≠ "" ∧
            jsTrim (getCell row iIdx) ≠ "0"
        · rw [if_pos h2, if_neg (by rw [hzi]; simp)]
        · rw [if_neg h2]
      · rw [if_neg hb, stdCellTx_eq, stdCellTx_eq, hzi, hze]
        simp

/-- C4, witness: a parsed NLB row with income `5` is stored with a positive
amount; a row whose income cell is `"0"` and whose expense cell is blank
produces no transaction. -/
theorem claim_C4_witness :
    (⟨some (2024, 2, 5), 5, "x", "y", TxType.income⟩ : Transaction) ∈
      parseBankTransactions "nlb"
        ⟨"s", ["Datum", "Prilivi", "Odlivi", "Namen", "Prejemnik"],
          [["05.03.2024", "5", "", "x", "y"]]⟩ ∧
    (0 : ℚ) <
      (⟨some (2024, 2, 5), 5, "x", "y", TxType.income⟩ : Transaction).amount ∧
    parseLocaleAmount
      (jsTrim (getCell ["05.03.2024", "0", "", "x", "y"] 1)) = 0 ∧
    parseLocaleAmount
      (jsTrim (getCell ["05.03.2024", "0", "", "x", "y"] 2)) = 0 ∧
    processRow "nlb" nlbConfig 0 1 2 3 4 ["05.03.2024", "0", "", "x", "y"] =
      [] :=
  ⟨by decide,
    claim_C4.1 "nlb"
      ⟨"s", ["Datum", "Prilivi", "Odlivi", "Namen", "Prejemnik"],
        [["05.03.2024", "5", "", "x", "y"]]⟩
      ⟨some (2024, 2, 5), 5, "x", "y", TxType.income⟩ (by decide),
    by decide, by decide,
    claim_C4.2 "nlb" nlbConfig 0 1 2 3 4 ["05.03.2024", "0", "", "x", "y"]
      (by decide) (by decide)⟩

/-- The concrete sheet of the C8 counterexample: the date cell `"banana"`
does not parse under `dd.mm.yyyy`, yet the row is not skipped. -/
def exSheetC8 : ParsedData :=
  { sheetName := "Sheet1",
    headers := ["Datum", "Prilivi", "Odlivi", "Namen", "Prejemnik"],
    rows := [["banana", "5", "", "x", "y"]] }

/-- C8, counterexample: a data row whose date cell is non-empty but
unparsable (`"banana"` has no numeric `dd.mm.yyyy` parts, so the built
`Date` is the Invalid Date, modelled `none`) still yields a transaction —
the builder never checks date validity, contradicting the claim that such
rows produce no transaction. -/
theorem claim_C8_counterexample :
    parseRowDate "dd.mm.yyyy" "banana" = none ∧
    parseBankTransactions "nlb" exSheetC8 =
      [⟨none, 5, "x", "y", TxType.income⟩] := by
  constructor <;> decide

/-- C8 (amended): only rows whose date cell is empty are skipped.  A row
with a non-empty date cell is processed regardless of whether the date
parses: the number of transactions it yields depends only on the amount
cells (the unparsable date is stored as an Invalid Date), and processing
of the remaining rows continues. -/
theorem claim_C8 : ∀ (currentBank : String) (config : BankConfig)
    (dIdx iIdx eIdx pIdx rIdx : Int) (row : List String),
    (getCell row dIdx = "" →
      processRow currentBank config dIdx iIdx eIdx pIdx rIdx row = []) ∧
    (getCell row dIdx ≠ "" → currentBank ≠ "erste" →
      (processRow currentBank config dIdx iIdx eIdx pIdx rIdx row).length =
        (if 0 < parseLocaleAmount (jsTrim (getCell row iIdx)) then 1
          else 0) +
        (if 0 < parseLocaleAmount (jsTrim (getCell row eIdx)) then 1
          else 0)) ∧
    (getCell row dIdx ≠ "" → currentBank = "erste" → iIdx ≠ -1 →
      (processRow currentBank config dIdx iIdx eIdx pIdx rIdx row).length =
        (if parseLocaleAmount (jsTrim (getCell row iIdx)) ≠ 0 then 1
          else 0)) := by
  intro currentBank config dIdx iIdx eIdx pIdx rIdx row
  refine ⟨?_, ?_, ?_⟩
  · intro hd
    rw [processRow_def, if_pos hd]
  · intro hd hb
    rw [processRow_std_eq currentBank config dIdx iIdx eIdx pIdx rIdx row hd
      (fun hc => hb hc.1)]
    split_ifs <;> simp
  · intro hd hb hi
    subst hb
    rw [processRow_erste_eq config dIdx iIdx eIdx pIdx rIdx row hd hi]
    split_ifs <;> simp

/-- C8, witness for the amended theorem: the `"banana"` date row is not
skipped — it yields exactly one transaction, as dictated by its amount
cells alone. -/
theorem claim_C8_witness :
    getCell ["banana", "5", "", "x", "y"] 0 ≠ "" ∧
    (processRow "nlb" nlbConfig 0 1 2 3 4
        ["banana", "5", "", "x", "y"]).length =
      (if 0 < parseLocaleAmount
          (jsTrim (getCell ["banana", "5", "", "x", "y"] 1)) then 1
        else 0) +
      (if 0 < parseLocaleAmount
          (jsTrim (getCell ["banana", "5", "", "x", "y"] 2)) then 1
        else 0) :=
  ⟨by decide,
    (claim_C8 "nlb" nlbConfig 0 1 2 3 4 ["banana", "5", "", "x", "y"]).2.1
      (by decide) (by decide)⟩

lemma catInsert_sum (m : List CategoryBucket) (k : String) (t : Transaction) :
    catAmountSum (catInsert m k t) = catAmountSum m + t.amount := by
  induction m with
  | nil => simp [catInsert, catAmountSum]
  | cons b rest ih =>
    by_cases h : b.category = k
    · simp only [catInsert, if_pos h, catAmountSum, List.map_cons,
        List.sum_cons]
      ring
    · simp only [catInsert, if_neg h, catAmountSum, List.map_cons,
        List.sum_cons] at ih ⊢
      rw [ih]
      ring

lemma catInsert_join_perm (m : List CategoryBucket) (k : String)
    (t : Transaction) :
    List.Perm (catJoin (catInsert m k t)) (t :: catJoin m) := by
  induction m with
  | nil => simp [catInsert, catJoin]
  | cons b rest ih =>
    by_cases h : b.category = k
    · simp only [catInsert, if_pos h, catJoin, List.flatMap_cons]
      rw [List.append_assoc]
      exact List.perm_middle
    · simp only [catInsert, if_neg h, catJoin, List.flatMap_cons]
      exact (List.Perm.append_left b.transactions ih).trans List.perm_middle

lemma catFold_spec : ∀ (ts : List Transaction) (m : List CategoryBucket),
    catAmountSum (ts.foldl (fun acc t =>
        catInsert acc (categorizeTransaction t) t) m) =
      catAmountSum m + sumAmounts ts ∧
    List.Perm (catJoin (ts.foldl (fun acc t =>
        catInsert acc (categorizeTransaction t) t) m))
      (catJoin m ++ ts) := by
  intro ts
  induction ts with
  | nil =>
    intro m
    simp [sumAmounts]
  | cons t rest ih =>
    intro m
    rw [List.foldl_cons]
    obtain ⟨hs, hj⟩ := ih (catInsert m (categorizeTransaction t) t)
    constructor
    · rw [hs, catInsert_sum]
      simp only [sumAmounts, List.map_cons, List.sum_cons]
      ring
    · refine hj.trans ?_
      refine (List.Perm.append_right rest
        (catInsert_join_perm m (categorizeTransaction t) t)).trans ?_
      exact List.perm_middle.symm

lemma dailyInsert_sum (m : List DailyData) (k : String) (t : Transaction) :
    dailySum (dailyInsert m k t) = dailySum m + t.amount := by
  induction m with
  | nil => simp [dailyInsert, dailySum]
  | cons d rest ih =>
    by_cases h : d.date = k
    · simp only [dailyInsert, if_pos h, dailySum, List.map_cons,
        List.sum_cons]
      ring
    · simp only [dailyInsert, if_neg h, dailySum, List.map_cons,
        List.sum_cons] at ih ⊢
      rw [ih]
      ring

lemma dailyInsert_join_perm (m : List DailyData) (k : String)
    (t : Transaction) :
    List.Perm (dailyJoin (dailyInsert m k t)) (t :: dailyJoin m) := by
  induction m with
  | nil => simp [dailyInsert, dailyJoin]
  | cons d rest ih =>
    by_cases h : d.date = k
    · simp only [dailyInsert, if_pos h, dailyJoin, List.flatMap_cons]
      rw [List.append_assoc]
      exact List.perm_middle
    · simp only [dailyInsert, if_neg h, dailyJoin, List.flatMap_cons]
      exact (List.Perm.append_left d.transactions ih).trans List.perm_middle

lemma getDailyDataAux_spec : ∀ (ts : List Transaction) (m : List DailyData)
    (res : List DailyData), getDailyDataAux ts m = some res →
    dailySum res = dailySum m + sumAmounts ts ∧
    List.Perm (dailyJoin res) (dailyJoin m ++ ts) := by
  intro ts
  induction ts with
  | nil =>
    intro m res h
    have hm : m = res := by
      injection h
    subst hm
    simp [sumAmounts]
  | cons t rest ih =>
    intro m res h
    unfold getDailyDataAux at h
    cases hk : dateKey t.date with
    | none =>
      rw [hk] at h
      exact Option.noConfusion h
    | some k =>
      rw [hk] at h
      obtain ⟨hs, hj⟩ := ih (dailyInsert m k t) res h
      constructor
      · rw [hs, dailyInsert_sum]
        simp only [sumAmounts, List.map_cons, List.sum_cons]
        ring
      · refine hj.trans ?_
        refine (List.Perm.append_right rest
          (dailyInsert_join_perm m k t)).trans ?_
        exact List.perm_middle.symm

lemma insertSorted_perm (le : α → α → Bool) (a : α) :
    ∀ l, List.Perm (insertSorted le a l) (a :: l) := by
  intro l
  induction l with
  | nil => exact List.Perm.refl _
  | cons b bs ih =>
    unfold insertSorted
    by_cases h : le a b
    · rw [if_pos h]
    · rw [if_neg h]
      exact (List.Perm.cons b ih).trans (List.Perm.swap a b bs)

lemma sortLe_perm (le : α → α → Bool) :
    ∀ l, List.Perm (sortLe le l) l := by
  intro l
  induction l with
  | nil => exact List.Perm.refl _
  | cons a t ih =>
    exact (insertSorted_perm le a (sortLe le t)).trans (List.Perm.cons a ih)

lemma dailySum_perm {l₁ l₂ : List DailyData} (h : List.Perm l₁ l₂) :
    dailySum l₁ = dailySum l₂ :=
  (h.map DailyData.amount).sum_eq

lemma dailyJoin_perm {l₁ l₂ : List DailyData} (h : List.Perm l₁ l₂) :
    List.Perm (dailyJoin l₁) (dailyJoin l₂) :=
  h.flatMap_right DailyData.transactions

/-- C1: conservation under aggregation.  For every transaction list, the
sum of the by-category bucket amounts equals the sum of the input amounts,
and the bucket transaction lists partition the input (a permutation: each
transaction lands in exactly one bucket, none double-counted or dropped);
likewise for the by-day aggregator whenever it returns (it throws — `none`
— only on an invalid date). -/
theorem claim_C1 : ∀ ts : List Transaction,
    (catAmountSum (getCategoryData ts) = sumAmounts ts ∧
      List.Perm (catJoin (getCategoryData ts)) ts) ∧
    (∀ ds, getDailyData ts = some ds →
      dailySum ds = sumAmounts ts ∧ List.Perm (dailyJoin ds) ts) := by
  intro ts
  constructor
  · obtain ⟨hs, hj⟩ := catFold_spec ts []
    constructor
    · simpa [catAmountSum] using hs
    · simpa [catJoin] using hj
  · intro ds h
    unfold getDailyData at h
    cases haux : getDailyDataAux ts [] with
    | none =>
      rw [haux] at h
      exact Option.noConfusion h
    | some l =>
      rw [haux] at h
      have hds : ds = sortLe (fun a b => strLeB a.date b.date) l := by
        have := Option.some.inj h
        exact this.symm
      obtain ⟨hs, hj⟩ := getDailyDataAux_spec ts [] l haux
      have hperm := sortLe_perm (fun a b => strLeB a.date b.date) l
      subst hds
      constructor
      · rw [dailySum_perm hperm, hs]
        simp [dailySum]
      · refine (dailyJoin_perm hperm).trans ?_
        simpa [dailyJoin] using hj

/-- The two concrete transactions of the C1 witness. -/
def wTx1 : Transaction := ⟨some (2024, 2, 5), 10, "a", "r", TxType.expense⟩

/-- Second transaction of the C1 witness, on a different day. -/
def wTx2 : Transaction := ⟨some (2024, 2, 4), 7, "b", "q", TxType.expense⟩

/-- C1, witness: the daily aggregator returns on a concrete two-transaction
list, and conservation holds for its output. -/
theorem claim_C1_witness :
    getDailyData [wTx1, wTx2] =
      some [⟨"2024-3-4", 7, 1, [wTx2]⟩, ⟨"2024-3-5", 10, 1, [wTx1]⟩] ∧
    dailySum [⟨"2024-3-4", 7, 1, [wTx2]⟩, ⟨"2024-3-5", 10, 1, [wTx1]⟩] =
      sumAmounts [wTx1, wTx2] ∧
    List.Perm
      (dailyJoin [⟨"2024-3-4", 7, 1, [wTx2]⟩, ⟨"2024-3-5", 10, 1, [wTx1]⟩])
      [wTx1, wTx2] :=
  ⟨by decide,
    ((claim_C1 [wTx1, wTx2]).2
      [⟨"2024-3-4", 7, 1, [wTx2]⟩, ⟨"2024-3-5", 10, 1, [wTx1]⟩]
      (by decide)).1,
    ((claim_C1 [wTx1, wTx2]).2
      [⟨"2024-3-4", 7, 1, [wTx2]⟩, ⟨"2024-3-5", 10, 1, [wTx1]⟩]
      (by decide)).2⟩

lemma recipientMapOf_eq_filter : ∀ (ts : List Transaction)
    (m : List RecipientData),
    ts.foldl (fun acc t =>
        if keepRecipientB t then
          recInsert acc (cleanRecipientName t.recipient) t
        else acc) m =
    (ts.filter keepRecipientB).foldl (fun acc t =>
        recInsert acc (cleanRecipientName t.recipient) t) m := by
  intro ts
  induction ts with
  | nil => intro m; rfl
  | cons t rest ih =>
    intro m
    rw [List.foldl_cons, List.filter_cons]
    by_cases h : keepRecipientB t = true
    · rw [if_pos h, if_pos h, List.foldl_cons]
      exact ih _
    · rw [if_neg h, if_neg h]
      exact ih m

lemma insertSorted_pairwise {le : α → α → Bool}
    (htot : ∀ a b, le a b = true ∨ le b a = true)
    (htrans : ∀ a b c, le a b = true → le b c = true → le a c = true)
    (a : α) : ∀ l, List.Pairwise (fun x y => le x y = true) l →
      List.Pairwise (fun x y => le x y = true) (insertSorted le a l) := by
  intro l
  induction l with
  | nil =>
    intro _
    simp [insertSorted]
  | cons b bs ih =>
    intro hp
    rw [List.pairwise_cons] at hp
    obtain ⟨hb, hbs⟩ := hp
    unfold insertSorted
    by_cases hab : le a b = true
    · rw [if_pos hab, List.pairwise_cons]
      refine ⟨?_, List.pairwise_cons.mpr ⟨hb, hbs⟩⟩
      intro x hx
      rcases List.mem_cons.mp hx with rfl | hx
      · exact hab
      · exact htrans a b x hab (hb x hx)
    · rw [if_neg hab, List.pairwise_cons]
      refine ⟨?_, ih hbs⟩
      intro x hx
      have hx2 : x = a ∨ x ∈ bs := by
        have := (insertSorted_perm le a bs).mem_iff.mp hx
        simpa using this
      rcases hx2 with h | hx2
      · rw [h]
        rcases htot a b with h2 | h2
        · exact absurd h2 hab
        · exact h2
      · exact hb x hx2

lemma sortLe_pairwise {le : α → α → Bool}
    (htot : ∀ a b, le a b = true ∨ le b a = true)
    (htrans : ∀ a b c, le a b = true → le b c = true → le a c = true) :
    ∀ l, List.Pairwise (fun x y => le x y = true) (sortLe le l) := by
  intro l
  induction l with
  | nil => exact List.Pairwise.nil
  | cons a t ih => exact insertSorted_pairwise htot htrans a (sortLe le t) ih

/-- C7: by-recipient aggregation.  The concrete normalization example
`"Podjetje ABC d.o.o." ↦ "ABC"` holds, and for every transaction list the
output of `getTopRecipients` is obtained by: discarding the transactions
whose normalized recipient name is `"Unknown"` or shorter than 3
characters (a filter — dropping them changes nothing), accumulating
`(amount, count)` per normalized name, ordering by the score
`amount + count * 10` descending, keeping at most the top 10, and
labelling each entry `name ++ " (" ++ count ++ "x)"` with its amount. -/
theorem claim_C7 :
    cleanRecipientName "Podjetje ABC d.o.o." = "ABC" ∧
    ∀ ts : List Transaction, ∃ rs : List RecipientData,
      List.Perm rs ((ts.filter keepRecipientB).foldl (fun acc t =>
        recInsert acc (cleanRecipientName t.recipient) t) []) ∧
      List.Pairwise (fun a b => recScore b ≤ recScore a) rs ∧
      getTopRecipients ts = (rs.take 10).map fmtRecipient ∧
      (getTopRecipients ts).length ≤ 10 := by
  constructor
  · decide
  · intro ts
    have htot : ∀ a b : RecipientData, recLe a b = true ∨ recLe b a = true := by
      intro a b
      rcases le_total (recScore b) (recScore a) with h | h
      · exact Or.inl (decide_eq_true h)
      · exact Or.inr (decide_eq_true h)
    have htrans : ∀ a b c : RecipientData, recLe a b = true →
        recLe b c = true → recLe a c = true := by
      intro a b c h1 h2
      exact decide_eq_true
        (le_trans (of_decide_eq_true h2) (of_decide_eq_true h1))
    refine ⟨sortLe recLe (recipientMapOf ts), ?_, ?_, rfl, ?_⟩
    · have heq : recipientMapOf ts = (ts.filter keepRecipientB).foldl
          (fun acc t => recInsert acc (cleanRecipientName t.recipient) t)
          [] := recipientMapOf_eq_filter ts []
      rw [← heq]
      exact sortLe_perm recLe (recipientMapOf ts)
    · have hp := sortLe_pairwise htot htrans (recipientMapOf ts)
      exact hp.imp (fun h => of_decide_eq_true h)
    · unfold getTopRecipients
      rw [List.length_map, List.length_take]
      exact min_le_left _ _
